import Mathlib

/-!
Verification development for the ArborX query-dispatch layer
(src/src/details/ArborX_DetailsBoundingVolumeHierarchyImpl.hpp) and the
distributed raytracing merge
(src/examples/distributed_raytracing/example_distributed_raytracing.cpp).

Modelling conventions.
A BVH together with an inline callback is abstracted by a function
`f : α → List V` giving, for each predicate, the sequence of values the
callback emits during traversal (in traversal order).  Kokkos views become
Lean lists; offset/value views become `List Nat`/`List V` pairs in CSR form.
Machine `int` becomes `Int`; `float` fields that are only ever compared
(never added) are modelled as `Int`.  Helpers that live in headers of this
repository that are not under src/ (queryImpl of
ArborX_DetailsBufferOptimization.hpp, exclusivePrefixSum of
ArborX_DetailsUtils.hpp, sortQueriesAlongZOrderCurve / applyPermutation /
makePermutedView of ArborX_DetailsBatchedQueries.hpp, the default callbacks of
ArborX_Callbacks.hpp, getK of ArborX_Predicates.hpp) are modelled from the
spec, as flagged in their doc comments.
-/

namespace ArborX

/-- NearestQueryAlgorithm (header lines 33–37). -/
inductive NearestQueryAlgorithm where
  | StackBased_Default
  | PriorityQueueBased_Deprecated
deriving DecidableEq

/-- Experimental::TraversalPolicy (header lines 43–84): signed buffer size
(default 0), predicate sorting flag (default true), nearest traversal
algorithm (default stack based). -/
structure TraversalPolicy where
  _buffer_size : Int := 0
  _sort_predicates : Bool := true
  _traversal_algorithm : NearestQueryAlgorithm := NearestQueryAlgorithm.StackBased_Default
deriving DecidableEq

/-- TraversalPolicy::setBufferSize (header lines 68–72). -/
def TraversalPolicy.setBufferSize (p : TraversalPolicy) (bs : Int) : TraversalPolicy :=
  { p with _buffer_size := bs }

/-- TraversalPolicy::setPredicateSorting (header lines 79–83). -/
def TraversalPolicy.setPredicateSorting (p : TraversalPolicy) (sp : Bool) : TraversalPolicy :=
  { p with _sort_predicates := sp }

/-- Modelled from the spec: exclusivePrefixSum (ArborX_DetailsUtils.hpp, not
under src/) applied to the (n+1)-sized offset view whose first n entries hold
the per-query counts; the result is the CSR offset sequence
[0, c0, c0+c1, ...]. -/
def offsetsOf : List Nat → List Nat
  | [] => [0]
  | c :: cs => 0 :: (offsetsOf cs).map (fun x => c + x)

/-- Per-query match counts of the counting pass: query p produces
(f p).length results. -/
def countsOf (f : α → List V) (preds : List α) : List Nat :=
  preds.map fun p => (f p).length

/-- The flat values sequence of the two-pass path: each query's matches
written contiguously at its precomputed slot. -/
def flatValues (f : α → List V) (preds : List α) : List V :=
  (preds.map f).flatten

/-- Modelled from the spec: the two-pass path of queryImpl
(ArborX_DetailsBufferOptimization.hpp, not under src/): pass 1 counts matches
per query, exclusive prefix sum gives the offsets, pass 2 re-traverses and
writes each match at its precomputed slot. -/
def twoPassQuery (f : α → List V) (preds : List α) : List Nat × List V :=
  (offsetsOf (countsOf f preds), flatValues f preds)

/-- Overflow test of the optimistic pass: some query produced more results
than its assumed capacity k. -/
def overflows (f : α → List V) (preds : List α) (k : Nat) : Bool :=
  (countsOf f preds).any fun c => k < c

/-- Modelled from the spec: compaction of a successful optimistic pass.  The
buffer holds, per query, a block of k slots of which the first count are
written (the rest stay uninitialized); compaction gathers query i's first
count_i block entries densely. -/
def compactOptimistic (f : α → List V) (preds : List α) (k : Nat) : List V :=
  (preds.map fun p =>
      ((((f p).take k).map some ++ List.replicate (k - (f p).length) none).take
          (f p).length).reduceOption).flatten

/-- Failure reported by the dispatch layer. -/
inductive QueryError where
  | CapacityExceeded
deriving DecidableEq

/-- Modelled from the spec: queryImpl (ArborX_DetailsBufferOptimization.hpp,
not under src/).  buffer_size = 0: two-pass.  buffer_size nonzero: one
optimistic pass with assumed capacity |buffer_size| per query; if some query
overflows its capacity the attempt is aborted and either the two-pass path is
retried transparently (positive) or CapacityExceeded is reported with no
output (negative); without overflow the buffer is compacted into the dense
CSR table. -/
def queryImpl (f : α → List V) (preds : List α) (buffer_size : Int) :
    Except QueryError (List Nat × List V) :=
  if buffer_size = 0 then .ok (twoPassQuery f preds)
  else
    let k := buffer_size.natAbs
    if overflows f preds k then
      if buffer_size < 0 then .error .CapacityExceeded
      else .ok (twoPassQuery f preds)
    else .ok (offsetsOf (countsOf f preds), compactOptimistic f preds k)

/-- CSR slice of query i: values[offset[i] .. offset[i+1]). -/
def csrSlice (off : List Nat) (vals : List V) (i : Nat) : List V :=
  (vals.drop (off.getD i 0)).take (off.getD (i + 1) 0 - off.getD i 0)

/-- Modelled from the spec: applyPermutation
(ArborX_DetailsBatchedQueries.hpp, not under src/): the reordered predicate
view, position p holds the predicate at original index perm[p]. -/
def applyPermutation [Inhabited α] (perm : List Nat) (preds : List α) : List α :=
  perm.map fun j => preds.getD j default

/-- Modelled from the spec: the effect of makePermutedView
(ArborX_DetailsBatchedQueries.hpp, not under src/): writes for reordered
position p are redirected to original index perm[p]'s slot, so original slot
i receives the reordered CSR slice at the position p with perm[p] = i; the
underlying offsets are rebuilt from the per-slot counts. -/
def unpermuteCSR (perm : List Nat) (n : Nat) (off : List Nat) (vals : List V) :
    List Nat × List V :=
  (offsetsOf ((List.range n).map fun i => (csrSlice off vals (perm.indexOf i)).length),
    ((List.range n).map fun i => csrSlice off vals (perm.indexOf i)).flatten)

/-- queryDispatch, SpatialPredicateTag, inline callback (header lines
108–161).  The offset prefill of lines 126–139 and the traversal are carried
out by queryImpl; the Z-order permutation that sortQueriesAlongZOrderCurve
(not under src/) would compute from bvh.bounds() is the parameter zperm; when
sorting is enabled the predicates are reordered by it and the offset/output
views are wrapped so writes land at the original query's slot (lines
141–155), otherwise the original order is traversed (lines 156–160). -/
def queryDispatchSpatialInline [Inhabited α] (f : α → List V) (preds : List α)
    (zperm : List Nat) (policy : TraversalPolicy) :
    Except QueryError (List Nat × List V) :=
  if policy._sort_predicates then
    (queryImpl f (applyPermutation zperm preds) policy._buffer_size).map
      fun r => unpermuteCSR zperm preds.length r.1 r.2
  else
    queryImpl f preds policy._buffer_size

/-- Modelled from the spec: CallbackDefaultSpatialPredicate
(ArborX_Callbacks.hpp, not under src/) emits each matched primitive index
unchanged, so composed with the traversal it is the traversal's per-predicate
primitive-index list itself. -/
def defaultSpatialCallback (tr : α → List Nat) : α → List Nat := tr

/-- queryDispatch, SpatialPredicateTag, post callback (header lines 175–190):
allocate an empty indices view, run the inline dispatch with
CallbackDefaultSpatialPredicate, then invoke the user callback once with the
full predicate set and the resulting CSR table. -/
def queryDispatchSpatialPost [Inhabited α] (tr : α → List Nat) (preds : List α)
    (cb : List α → List Nat → List Nat → β) (zperm : List Nat)
    (policy : TraversalPolicy) : Except QueryError β :=
  (queryDispatchSpatialInline (defaultSpatialCallback tr) preds zperm policy).map
    fun r => cb preds r.1 r.2

/-- The guard of header line 223: the sorted branch of the nearest dispatch is
conjoined with the literal false, so it is statically disabled. -/
def nearestUsesSortedPath (policy : TraversalPolicy) : Bool :=
  policy._sort_predicates && false

/-- queryDispatch, NearestPredicateTag, inline callback (header lines
192–243).  getK (ArborX_Predicates.hpp, not under src/) reads the requested
neighbor count of a predicate.  offset(i) := getK(predicate i) (line 217),
exclusive prefix sum (line 218), out reallocated to lastElement(offset)
(lines 219–221).  The guard of line 223 statically disables the sorted
branch, so the traversal always runs on the original order with the
hardwired buffer argument -1 (lines 238–242).  The single pass is modelled
from the spec: query i writes its at most getK nearest matches into its
slice; spare slots stay uninitialized (none). -/
def queryDispatchNearestInline [Inhabited α] (g : α → List V) (getK : α → Nat)
    (preds : List α) (zperm : List Nat) (policy : TraversalPolicy) :
    List Nat × List (Option V) :=
  let offsets := offsetsOf (preds.map getK)
  if nearestUsesSortedPath policy then
    let permuted := applyPermutation zperm preds
    (offsets,
      ((List.range preds.length).map fun i =>
          (fun p => ((g p).take (getK p)).map some ++
              List.replicate (getK p - (g p).length) none)
            (permuted.getD (zperm.indexOf i) default)).flatten)
  else
    (offsets,
      (preds.map fun p =>
          ((g p).take (getK p)).map some ++
            List.replicate (getK p - (g p).length) none).flatten)

/-- Modelled from the spec: CallbackDefaultNearestPredicateWithDistance
(ArborX_Callbacks.hpp, not under src/) emits the (index, distance) pair of
each match unchanged, so composed with the traversal it is the traversal's
per-predicate pair list itself. -/
def defaultNearestCallbackWithDistance (trN : α → List (Nat × δ)) :
    α → List (Nat × δ) := trN

/-- queryDispatch, NearestPredicateTag, post callback (header lines 245–262):
allocate an empty (index, distance) pair view, run the inline dispatch with
CallbackDefaultNearestPredicateWithDistance, then invoke the user callback
once with the full predicate set and the resulting CSR table. -/
def queryDispatchNearestPost [Inhabited α] (trN : α → List (Nat × δ))
    (getK : α → Nat) (preds : List α)
    (cb : List α → List Nat → List (Option (Nat × δ)) → β) (zperm : List Nat)
    (policy : TraversalPolicy) : β :=
  let r := queryDispatchNearestInline (defaultNearestCallbackWithDistance trN)
    getK preds zperm policy
  cb preds r.1 r.2

/-! Distributed raytracing example (example_distributed_raytracing.cpp).
Floats that are only compared are modelled as Int. -/

/-- IntersectedRankForSorting (example lines 174–185): the ordering key of a
partial result, entry distance of the ray into the rank's region plus the
originating ray id. -/
structure IntersectedRankForSorting where
  entrylength : Int
  ray_id : Int
deriving DecidableEq

/-- operator< of IntersectedRankForSorting (example lines 178–184):
lexicographic, ray id first, then entry length. -/
def sortingLT (l r : IntersectedRankForSorting) : Bool :=
  if l.ray_id = r.ray_id then decide (l.entrylength < r.entrylength)
  else decide (l.ray_id < r.ray_id)

/-- IntersectedRank (example lines 187–199): a per-(ray, rank) partial
result: the sorting base plus the rank's accumulated optical path length and
intensity contribution. -/
structure IntersectedRank extends IntersectedRankForSorting where
  optical_path_length : Int
  intensity_contribution : Int
deriving DecidableEq

/-- Comparator used to model the std::sort argsort of example lines 549–567:
a stable sort under the reflexive closure of operator< on the sorting base.
std::sort leaves the relative order of tie records unspecified; the model
fixes it with a stable insertion sort. -/
def sortLE (a b : IntersectedRank) : Prop :=
  sortingLT b.toIntersectedRankForSorting a.toIntersectedRankForSorting = false

instance : DecidableRel sortLE := fun a b => by
  unfold sortLE; infer_instance

/-- Strict comparison on full records through their sorting base. -/
def sortLT (a b : IntersectedRank) : Prop :=
  sortingLT a.toIntersectedRankForSorting b.toIntersectedRankForSorting = true

instance : DecidableRel sortLT := fun a b => by
  unfold sortLT; infer_instance

instance : IsTotal IntersectedRank sortLE :=
  ⟨fun a b => by
    unfold sortLE sortingLT
    split_ifs <;> simp <;> omega⟩

instance : IsTrans IntersectedRank sortLE :=
  ⟨fun a b c hab hbc => by
    unfold sortLE sortingLT at hab hbc ⊢
    split_ifs at hab hbc ⊢ <;> simp_all <;> omega⟩

instance : IsAntisymm IntersectedRank sortLT :=
  ⟨fun a b hab hba => by
    exfalso
    unfold sortLT sortingLT at hab hba
    split_ifs at hab hba <;> simp_all <;> omega⟩

/-- Comparison of full records by entry length alone, used to characterize
the within-query order the merge produces. -/
def entryLE (a b : IntersectedRank) : Prop :=
  a.entrylength ≤ b.entrylength

instance : DecidableRel entryLE := fun a b => by
  unfold entryLE; infer_instance

instance : IsTotal IntersectedRank entryLE :=
  ⟨fun a b => by unfold entryLE; omega⟩

instance : IsTrans IntersectedRank entryLE :=
  ⟨fun a b c hab hbc => by unfold entryLE at hab hbc ⊢; omega⟩

/-- Strict entry-length comparison. -/
def entryLT (a b : IntersectedRank) : Prop :=
  a.entrylength < b.entrylength

instance : IsAntisymm IntersectedRank entryLT :=
  ⟨fun a b hab hba => by
    exfalso
    unfold entryLT at hab hba
    omega⟩

/-- The loop of example lines 531–538: the originating rank restores the ray
id of every partial result, writing i into each record of ray i's CSR
slice. -/
def applyRayIds (offsets : List Nat) (values : List IntersectedRank)
    (nrays : Nat) : List IntersectedRank :=
  ((List.range nrays).map fun i =>
      (csrSlice offsets values i).map fun v => { v with ray_id := (i : Int) }).flatten

/-- The merge of example lines 531–567: restore ray ids, then reorder all
partial results by the stable argsort under operator< on the sorting base
(ray id first, then entry length). -/
def mergeValues (offsets : List Nat) (values : List IntersectedRank)
    (nrays : Nat) : List IntersectedRank :=
  List.insertionSort sortLE (applyRayIds offsets values nrays)

/-- The partial results consumed for ray i by the accumulation loop of
example lines 572–591: positions offsets(i) .. offsets(i+1) of the merged
sequence. -/
def mergedFor (offsets : List Nat) (values : List IntersectedRank)
    (nrays i : Nat) : List IntersectedRank :=
  csrSlice offsets (mergeValues offsets values nrays) i

/-! Partitioning in the distributed example driver (example lines 491–511). -/

/-- num_boxes_per_rank (example line 502): integer division. -/
def num_boxes_per_rank (num_boxes nranks : Nat) : Nat := num_boxes / nranks

/-- The global box ids a rank owns (example lines 507–509): the subview
[num_boxes_per_rank * rank, num_boxes_per_rank * (rank + 1)). -/
def boxes_for_rank (num_boxes nranks rank : Nat) : List Nat :=
  List.range' (num_boxes_per_rank num_boxes nranks * rank)
    (num_boxes_per_rank num_boxes nranks)

/-- The warning of example lines 494–501: rank 0 warns exactly when the box
count is not divisible by the number of ranks. -/
def warnsImbalance (num_boxes nranks : Nat) : Bool :=
  num_boxes % nranks != 0

/-! Basic facts about the CSR offset construction. -/

lemma offsetsOf_exists_cons (cs : List Nat) : ∃ t, offsetsOf cs = 0 :: t := by
  cases cs <;> exact ⟨_, rfl⟩

lemma offsetsOf_length (cs : List Nat) : (offsetsOf cs).length = cs.length + 1 := by
  induction cs with
  | nil => rfl
  | cons c cs ih => simp [offsetsOf, ih]

lemma offsetsOf_getD_zero (cs : List Nat) : (offsetsOf cs).getD 0 0 = 0 := by
  cases cs <;> rfl

lemma offsetsOf_getD_last (cs : List Nat) :
    (offsetsOf cs).getD cs.length 0 = cs.sum := by
  induction cs with
  | nil => rfl
  | cons c cs ih =>
    have hlt : cs.length < (offsetsOf cs).length := by
      rw [offsetsOf_length]; omega
    rw [offsetsOf, List.length_cons, List.getD_cons_succ,
      List.getD_eq_getElem _ _ (by simpa using hlt), List.getElem_map,
      ← List.getD_eq_getElem _ 0 hlt, ih, List.sum_cons]

lemma offsetsOf_getD_succ (cs : List Nat) (i : Nat) (h : i < cs.length) :
    (offsetsOf cs).getD (i + 1) 0 = cs.getD i 0 + (offsetsOf cs).getD i 0 := by
  induction cs generalizing i with
  | nil => simp at h
  | cons c cs ih =>
    cases i with
    | zero =>
      obtain ⟨t, ht⟩ := offsetsOf_exists_cons cs
      simp [offsetsOf, ht]
    | succ i =>
      have hi : i < cs.length := by simpa using h
      have h₁ : i < (offsetsOf cs).length := by rw [offsetsOf_length]; omega
      have h₂ : i + 1 < (offsetsOf cs).length := by rw [offsetsOf_length]; omega
      have e₂ : (List.map (fun x => c + x) (offsetsOf cs)).getD (i + 1) 0
          = c + (offsetsOf cs).getD (i + 1) 0 := by
        rw [List.getD_eq_getElem _ _ (by simpa using h₂), List.getElem_map,
          ← List.getD_eq_getElem _ 0 h₂]
      have e₁ : (List.map (fun x => c + x) (offsetsOf cs)).getD i 0
          = c + (offsetsOf cs).getD i 0 := by
        rw [List.getD_eq_getElem _ _ (by simpa using h₁), List.getElem_map,
          ← List.getD_eq_getElem _ 0 h₁]
      simp only [offsetsOf, List.getD_cons_succ]
      rw [e₂, e₁, ih i hi]
      omega

lemma offsetsOf_pairwise (cs : List Nat) :
    (offsetsOf cs).Pairwise (· ≤ ·) := by
  induction cs with
  | nil => simp [offsetsOf]
  | cons c cs ih =>
    rw [offsetsOf]
    refine List.Pairwise.cons (fun x hx => Nat.zero_le x) ?_
    exact List.pairwise_map.mpr (ih.imp fun hab => by omega)

lemma map_getD_range [Inhabited α] (l : List α) :
    (List.range l.length).map (fun j => l.getD j default) = l := by
  induction l with
  | nil => rfl
  | cons a l ih =>
    rw [List.length_cons, List.range_succ_eq_map, List.map_cons, List.map_map]
    have hc : ((fun j => (a :: l).getD j default) ∘ Nat.succ)
        = (fun j => l.getD j default) := by
      funext j
      simp [Function.comp, List.getD_cons_succ]
    rw [hc, ih]
    rfl

/-- Reading back query i's CSR slice from offsets built over the per-query
lengths recovers exactly query i's list. -/
lemma csrSlice_flatten (Ls : List (List V)) (i : Nat) :
    csrSlice (offsetsOf (Ls.map List.length)) Ls.flatten i = Ls.getD i [] := by
  induction Ls generalizing i with
  | nil =>
    simp [csrSlice, offsetsOf]
  | cons a Ls ih =>
    have hoff : offsetsOf ((a :: Ls).map List.length)
        = 0 :: (offsetsOf (Ls.map List.length)).map (fun x => a.length + x) := rfl
    cases i with
    | zero =>
      obtain ⟨t, ht⟩ := offsetsOf_exists_cons (Ls.map List.length)
      rw [csrSlice, hoff, ht]
      have hta : List.take a.length (a ++ Ls.flatten) = a := List.take_left' rfl
      simp [hta]
    | succ i =>
      have key : ∀ j, j < (offsetsOf (Ls.map List.length)).length →
          (List.map (fun x => a.length + x) (offsetsOf (Ls.map List.length))).getD j 0
            = a.length + (offsetsOf (Ls.map List.length)).getD j 0 := by
        intro j hj
        rw [List.getD_eq_getElem _ _ (by simpa using hj), List.getElem_map,
          ← List.getD_eq_getElem _ 0 hj]
      simp only [csrSlice, hoff, List.getD_cons_succ, List.flatten_cons]
      rcases Nat.lt_or_ge i (offsetsOf (Ls.map List.length)).length with hi | hi
      · rw [key i hi]
        rcases Nat.lt_or_ge (i + 1) (offsetsOf (Ls.map List.length)).length with hi2 | hi2
        · rw [key (i + 1) hi2, Nat.add_sub_add_left, List.drop_append]
          exact ih i
        · have hlen : Ls.length ≤ i := by
            rw [offsetsOf_length, List.length_map] at hi2; omega
          have d2 : (List.map (fun x => a.length + x)
              (offsetsOf (Ls.map List.length))).getD (i + 1) 0 = 0 :=
            List.getD_eq_default _ _ (by simpa using hi2)
          have d3 : Ls.getD i [] = [] := List.getD_eq_default _ _ hlen
          rw [d2, d3]
          simp
      · have hlen : Ls.length < i := by
          rw [offsetsOf_length, List.length_map] at hi; omega
        have d1 : (List.map (fun x => a.length + x)
            (offsetsOf (Ls.map List.length))).getD i 0 = 0 :=
          List.getD_eq_default _ _ (by simpa using hi)
        have d2 : (List.map (fun x => a.length + x)
            (offsetsOf (Ls.map List.length))).getD (i + 1) 0 = 0 :=
          List.getD_eq_default _ _ (by simp; omega)
        have d3 : Ls.getD i [] = [] := List.getD_eq_default _ _ (by omega)
        rw [d1, d2, d3]
        simp

lemma length_csr_flatten (Ls : List (List V)) :
    Ls.flatten.length = (offsetsOf (Ls.map List.length)).getD Ls.length 0 := by
  rw [List.length_flatten]
  have := offsetsOf_getD_last (Ls.map List.length)
  rw [List.length_map] at this
  rw [this]

/-! Facts about queryImpl: without overflow the compacted optimistic buffer
coincides with the two-pass output, so queryImpl either reports
CapacityExceeded (negative buffer size and overflow) or returns exactly the
two-pass table. -/

lemma compactOptimistic_eq (f : α → List V) (preds : List α) (k : Nat)
    (h : overflows f preds k = false) :
    compactOptimistic f preds k = flatValues f preds := by
  unfold compactOptimistic flatValues
  congr 1
  apply List.map_congr_left
  intro p hp
  have hc : ¬ k < (f p).length := by
    have hall := List.any_eq_false.mp h
    have hm : (f p).length ∈ countsOf f preds := by
      simp only [countsOf]
      exact List.mem_map_of_mem _ hp
    simpa using hall _ hm
  have hle : (f p).length ≤ k := Nat.not_lt.mp hc
  rw [List.take_of_length_le hle, List.take_left' (by simp)]
  simp [List.reduceOption]

lemma queryImpl_eq (f : α → List V) (preds : List α) (bs : Int) :
    queryImpl f preds bs =
      if bs < 0 ∧ overflows f preds bs.natAbs = true then .error .CapacityExceeded
      else .ok (twoPassQuery f preds) := by
  unfold queryImpl
  by_cases h0 : bs = 0
  · simp [h0]
  · simp only [if_neg h0]
    by_cases hov : overflows f preds bs.natAbs = true
    · by_cases hneg : bs < 0
      · simp [hov, hneg]
      · simp [hov, hneg]
    · have hov' : overflows f preds bs.natAbs = false := by simpa using hov
      simp [hov', twoPassQuery, compactOptimistic_eq f preds bs.natAbs hov']

/-! Facts about the sorted spatial path: traversing the Z-order-permuted
predicates with writes redirected through the permuted offset view produces
exactly the unsorted two-pass table. -/

lemma perm_any (p : α → Bool) {l₁ l₂ : List α} (h : l₁.Perm l₂) :
    l₁.any p = l₂.any p := by
  cases e : l₂.any p
  · rw [List.any_eq_false] at e ⊢
    exact fun x hx => e x (h.mem_iff.mp hx)
  · rw [List.any_eq_true] at e ⊢
    obtain ⟨x, hx, hpx⟩ := e
    exact ⟨x, h.mem_iff.mpr hx, hpx⟩

lemma countsOf_applyPermutation [Inhabited α] (f : α → List V) (preds : List α)
    (zperm : List Nat) :
    countsOf f (applyPermutation zperm preds)
      = zperm.map fun j => (f (preds.getD j default)).length := by
  simp [countsOf, applyPermutation, List.map_map, Function.comp]

lemma countsOf_eq_range [Inhabited α] (f : α → List V) (preds : List α) :
    countsOf f preds
      = (List.range preds.length).map fun j => (f (preds.getD j default)).length := by
  have h := congrArg (List.map fun p => (f p).length) (map_getD_range preds)
  rw [List.map_map] at h
  exact h.symm

lemma flatValues_eq_range [Inhabited α] (f : α → List V) (preds : List α) :
    flatValues f preds
      = ((List.range preds.length).map fun j => f (preds.getD j default)).flatten := by
  have h := congrArg (fun l => (List.map f l).flatten) (map_getD_range preds)
  simp only [List.map_map] at h
  exact h.symm

lemma overflows_applyPermutation [Inhabited α] (f : α → List V) (preds : List α)
    (zperm : List Nat) (hz : zperm.Perm (List.range preds.length)) (k : Nat) :
    overflows f (applyPermutation zperm preds) k = overflows f preds k := by
  unfold overflows
  rw [countsOf_applyPermutation, countsOf_eq_range]
  exact perm_any _ (hz.map _)

lemma unpermute_twoPass [Inhabited α] (f : α → List V) (preds : List α)
    (zperm : List Nat) (hz : zperm.Perm (List.range preds.length)) :
    unpermuteCSR zperm preds.length
        (twoPassQuery f (applyPermutation zperm preds)).1
        (twoPassQuery f (applyPermutation zperm preds)).2
      = twoPassQuery f preds := by
  have h1 : (twoPassQuery f (applyPermutation zperm preds)).1
      = offsetsOf ((zperm.map fun j => f (preds.getD j default)).map List.length) := by
    show offsetsOf (countsOf f (applyPermutation zperm preds)) = _
    rw [countsOf_applyPermutation, List.map_map]
    rfl
  have h2 : (twoPassQuery f (applyPermutation zperm preds)).2
      = (zperm.map fun j => f (preds.getD j default)).flatten := by
    show flatValues f (applyPermutation zperm preds) = _
    rw [flatValues, applyPermutation, List.map_map]
    rfl
  have hslot : ∀ i ∈ List.range preds.length,
      csrSlice (twoPassQuery f (applyPermutation zperm preds)).1
          (twoPassQuery f (applyPermutation zperm preds)).2 (zperm.indexOf i)
        = f (preds.getD i default) := by
    intro i hr
    have hmem : i ∈ zperm := hz.mem_iff.mpr hr
    have hidx : zperm.indexOf i < zperm.length := List.indexOf_lt_length.mpr hmem
    rw [h1, h2, csrSlice_flatten]
    have hlen : zperm.indexOf i
        < (zperm.map fun j => f (preds.getD j default)).length := by
      simpa using hidx
    rw [List.getD_eq_getElem _ _ hlen, List.getElem_map, List.getElem_indexOf hidx]
  have hc : (List.range preds.length).map
        (fun i => (csrSlice (twoPassQuery f (applyPermutation zperm preds)).1
          (twoPassQuery f (applyPermutation zperm preds)).2 (zperm.indexOf i)).length)
      = countsOf f preds := by
    rw [countsOf_eq_range]
    exact List.map_congr_left fun i hi => by rw [hslot i hi]
  have hv : ((List.range preds.length).map
        fun i => csrSlice (twoPassQuery f (applyPermutation zperm preds)).1
          (twoPassQuery f (applyPermutation zperm preds)).2 (zperm.indexOf i)).flatten
      = flatValues f preds := by
    rw [flatValues_eq_range]
    congr 1
    exact List.map_congr_left hslot
  unfold unpermuteCSR
  rw [hc, hv]
  rfl

/-- Reading one slice of the two-pass table gives exactly that query's
matches. -/
lemma twoPass_slice [Inhabited α] (f : α → List V) (preds : List α) (i : Nat)
    (hi : i < preds.length) :
    csrSlice (twoPassQuery f preds).1 (twoPassQuery f preds).2 i
      = f (preds.getD i default) := by
  have hcounts : countsOf f preds = (preds.map f).map List.length := by
    rw [List.map_map]; rfl
  show csrSlice (offsetsOf (countsOf f preds)) (flatValues f preds) i = _
  rw [hcounts, flatValues, csrSlice_flatten]
  have hi2 : i < (preds.map f).length := by simpa using hi
  rw [List.getD_eq_getElem _ _ hi2, List.getElem_map,
    ← List.getD_eq_getElem _ default hi]

/-- The workhorse of the spatial dispatch claims: whatever the sorting flag
(given that the sorted branch receives a genuine permutation), the dispatch
behaves like queryImpl on the original predicate order. -/
lemma spatialDispatch_eq [Inhabited α] (f : α → List V) (preds : List α)
    (zperm : List Nat) (pol : TraversalPolicy)
    (hz : pol._sort_predicates = true → zperm.Perm (List.range preds.length)) :
    queryDispatchSpatialInline f preds zperm pol
      = queryImpl f preds pol._buffer_size := by
  unfold queryDispatchSpatialInline
  by_cases hsp : pol._sort_predicates = true
  · have hzp := hz hsp
    rw [if_pos hsp, queryImpl_eq f (applyPermutation zperm preds),
      queryImpl_eq f preds, overflows_applyPermutation f preds zperm hzp]
    by_cases hcond : pol._buffer_size < 0
        ∧ overflows f preds pol._buffer_size.natAbs = true
    · simp [hcond, Except.map]
    · simp only [if_neg hcond, Except.map]
      rw [unpermute_twoPass f preds zperm hzp]
  · rw [if_neg hsp]

/-! Facts about the nearest inline dispatch. -/

/-- The sorted branch of the nearest dispatch is statically dead, so the
dispatch always produces the prefix-sum offsets of the requested neighbor
counts and the block-per-query values buffer. -/
lemma nearestDispatch_eq [Inhabited α] (g : α → List V) (getK : α → Nat)
    (preds : List α) (zperm : List Nat) (pol : TraversalPolicy) :
    queryDispatchNearestInline g getK preds zperm pol
      = (offsetsOf (preds.map getK),
        (preds.map fun p => ((g p).take (getK p)).map some
            ++ List.replicate (getK p - (g p).length) none).flatten) := by
  simp [queryDispatchNearestInline, nearestUsesSortedPath]

lemma nearestBlock_length (g : α → List V) (getK : α → Nat) (p : α) :
    (((g p).take (getK p)).map some
        ++ List.replicate (getK p - (g p).length) (none : Option V)).length
      = getK p := by
  simp only [List.length_append, List.length_map, List.length_take,
    List.length_replicate]
  omega

lemma nearest_values_length [Inhabited α] (g : α → List V) (getK : α → Nat)
    (preds : List α) (zperm : List Nat) (pol : TraversalPolicy) :
    (queryDispatchNearestInline g getK preds zperm pol).2.length
      = (offsetsOf (preds.map getK)).getD preds.length 0 := by
  rw [nearestDispatch_eq]
  have hmap : (preds.map fun p => ((g p).take (getK p)).map some
        ++ List.replicate (getK p - (g p).length) (none : Option V)).map List.length
      = preds.map getK := by
    rw [List.map_map]
    exact List.map_congr_left fun p _ => nearestBlock_length g getK p
  have := length_csr_flatten (preds.map fun p => ((g p).take (getK p)).map some
    ++ List.replicate (getK p - (g p).length) (none : Option V))
  rw [hmap, List.length_map] at this
  exact this

/-- C2: for spatial inline dispatch, the sign of the TraversalPolicy buffer
size selects the overflow policy and its magnitude the assumed per-query
capacity: buffer size 0 always runs the counting two-pass path; +k attempts
the optimistic pass and on overflow of any query silently falls back to the
two-pass result with no error surfaced; -k reports CapacityExceeded on
overflow with no retry and no partial output. -/
theorem C2_buffer_size_policy [Inhabited α] (f : α → List V) (preds : List α)
    (zperm : List Nat) (sp : Bool) (alg : NearestQueryAlgorithm) (k : Nat)
    (hk : 0 < k)
    (hz : sp = true → zperm.Perm (List.range preds.length)) :
    queryDispatchSpatialInline f preds zperm ⟨0, sp, alg⟩
      = .ok (twoPassQuery f preds)
    ∧ (overflows f preds k = true →
        queryDispatchSpatialInline f preds zperm ⟨(k : Int), sp, alg⟩
          = .ok (twoPassQuery f preds))
    ∧ (overflows f preds k = true →
        queryDispatchSpatialInline f preds zperm ⟨-(k : Int), sp, alg⟩
          = .error .CapacityExceeded) := by
  refine ⟨?_, ?_, ?_⟩
  · rw [spatialDispatch_eq _ _ _ _ hz, queryImpl_eq]
    simp
  · intro _
    rw [spatialDispatch_eq _ _ _ _ hz, queryImpl_eq]
    have hpos : ¬ ((k : Int) < 0) := by omega
    simp [hpos]
  · intro hov
    rw [spatialDispatch_eq _ _ _ _ hz, queryImpl_eq]
    have h1 : (-(k : Int)) < 0 := by omega
    have h2 : (-(k : Int)).natAbs = k := by simp
    simp [h1, h2, hov]

/-- Witness for C2 at a concrete overfull query. -/
theorem C2_witness :
    ((0 < 1)
      ∧ (false = true → List.Perm [0] (List.range ([0] : List Nat).length)))
    ∧ (queryDispatchSpatialInline (fun _ : Nat => [1, 2]) [0] [0]
          ⟨0, false, .StackBased_Default⟩
        = .ok (twoPassQuery (fun _ : Nat => [1, 2]) [0])
      ∧ (overflows (fun _ : Nat => [1, 2]) [0] 1 = true →
          queryDispatchSpatialInline (fun _ : Nat => [1, 2]) [0] [0]
              ⟨(1 : Int), false, .StackBased_Default⟩
            = .ok (twoPassQuery (fun _ : Nat => [1, 2]) [0]))
      ∧ (overflows (fun _ : Nat => [1, 2]) [0] 1 = true →
          queryDispatchSpatialInline (fun _ : Nat => [1, 2]) [0] [0]
              ⟨-(1 : Int), false, .StackBased_Default⟩
            = .error .CapacityExceeded)) :=
  ⟨⟨by decide, by decide⟩,
    C2_buffer_size_policy (fun _ : Nat => [1, 2]) [0] [0] false
      .StackBased_Default 1 (by decide) (by decide)⟩

/-- C3: for every predicate batch and buffer policy in 0, +k, -k, when no
query overflows the assumed capacity, the optimistic one-pass path and the
two-pass path produce identical (offsets, values). -/
theorem C3_paths_agree (f : α → List V) (preds : List α) (k : Nat)
    (h : overflows f preds k = false) :
    queryImpl f preds (k : Int) = .ok (twoPassQuery f preds)
    ∧ queryImpl f preds (-(k : Int)) = .ok (twoPassQuery f preds)
    ∧ queryImpl f preds 0 = .ok (twoPassQuery f preds) := by
  have hk : ((k : Int)).natAbs = k := by simp
  have hk2 : (-(k : Int)).natAbs = k := by simp
  refine ⟨?_, ?_, ?_⟩ <;> rw [queryImpl_eq] <;> simp [hk, hk2, h]

/-- Witness for C3 at a concrete batch with no overflow. -/
theorem C3_witness :
    (overflows (fun _ : Nat => [5]) [0, 1] 2 = false)
    ∧ (queryImpl (fun _ : Nat => [5]) [0, 1] (2 : Int)
        = .ok (twoPassQuery (fun _ : Nat => [5]) [0, 1])
      ∧ queryImpl (fun _ : Nat => [5]) [0, 1] (-(2 : Int))
        = .ok (twoPassQuery (fun _ : Nat => [5]) [0, 1])
      ∧ queryImpl (fun _ : Nat => [5]) [0, 1] 0
        = .ok (twoPassQuery (fun _ : Nat => [5]) [0, 1])) :=
  ⟨by decide, C3_paths_agree (fun _ : Nat => [5]) [0, 1] 2 (by decide)⟩

/-- C4: enabling predicate sorting never changes the per-query result set;
in this deterministic embedding the sorted and unsorted dispatch outputs are
equal outright, for the spatial and the nearest inline paths alike. -/
theorem C4_sorting_invariance [Inhabited α] [Inhabited β]
    (f : α → List V) (preds : List α) (zperm : List Nat)
    (g : β → List W) (getK : β → Nat) (predsN : List β) (zpermN : List Nat)
    (bs : Int) (alg : NearestQueryAlgorithm)
    (hz : zperm.Perm (List.range preds.length)) :
    queryDispatchSpatialInline f preds zperm ⟨bs, true, alg⟩
      = queryDispatchSpatialInline f preds zperm ⟨bs, false, alg⟩
    ∧ queryDispatchNearestInline g getK predsN zpermN ⟨bs, true, alg⟩
      = queryDispatchNearestInline g getK predsN zpermN ⟨bs, false, alg⟩ := by
  constructor
  · rw [spatialDispatch_eq f preds zperm ⟨bs, true, alg⟩ (fun _ => hz),
      spatialDispatch_eq f preds zperm ⟨bs, false, alg⟩
        (fun h => absurd h (by simp))]
  · rw [nearestDispatch_eq, nearestDispatch_eq]

/-- Witness for C4 at a concrete two-query batch with a nontrivial
permutation. -/
theorem C4_witness :
    (List.Perm [1, 0] (List.range ([10, 20] : List Nat).length))
    ∧ (queryDispatchSpatialInline (fun p : Nat => [p]) [10, 20] [1, 0]
          ⟨1, true, .StackBased_Default⟩
        = queryDispatchSpatialInline (fun p : Nat => [p]) [10, 20] [1, 0]
          ⟨1, false, .StackBased_Default⟩
      ∧ queryDispatchNearestInline (fun p : Nat => [p]) (fun _ => 1) [7] [0]
          ⟨1, true, .StackBased_Default⟩
        = queryDispatchNearestInline (fun p : Nat => [p]) (fun _ => 1) [7] [0]
          ⟨1, false, .StackBased_Default⟩) :=
  ⟨by decide,
    C4_sorting_invariance (fun p : Nat => [p]) [10, 20] [1, 0]
      (fun p : Nat => [p]) (fun _ => 1) [7] [0] 1 .StackBased_Default
      (by decide)⟩

/-- C5 (amended): when predicate sorting is enabled the spatial dispatch
traverses the Z-order-reordered predicate view and redirects every write
through the permuted offset view into the original query's CSR slot; the
nearest dispatch never takes the sorted branch because its guard is the
sorting flag conjoined with the literal false. -/
theorem C5_sorted_path_mechanism [Inhabited α] (f : α → List V)
    (preds : List α) (zperm : List Nat) (pol : TraversalPolicy)
    (hsp : pol._sort_predicates = true)
    (hz : zperm.Perm (List.range preds.length)) :
    queryDispatchSpatialInline f preds zperm pol
      = (queryImpl f (applyPermutation zperm preds) pol._buffer_size).map
          (fun r => unpermuteCSR zperm preds.length r.1 r.2)
    ∧ (∀ r, queryDispatchSpatialInline f preds zperm pol = .ok r →
        ∀ i, i < preds.length → csrSlice r.1 r.2 i = f (preds.getD i default))
    ∧ (∀ q : TraversalPolicy, nearestUsesSortedPath q = false) := by
  refine ⟨?_, ?_, ?_⟩
  · unfold queryDispatchSpatialInline
    rw [if_pos hsp]
  · intro r hr i hi
    rw [spatialDispatch_eq f preds zperm pol (fun _ => hz), queryImpl_eq] at hr
    split at hr
    · exact absurd hr (by simp)
    · have hr2 := (Except.ok.inj hr).symm
      rw [hr2]
      exact twoPass_slice f preds i hi
  · intro q
    simp [nearestUsesSortedPath]

/-- Counterexample for C5 as stated: with the default policy (sorting
enabled) the guard of the nearest dispatch's sorted branch is still false, so
the nearest kind never computes or applies the permutation. -/
theorem C5_counterexample :
    ({} : TraversalPolicy)._sort_predicates = true
    ∧ nearestUsesSortedPath {} = false :=
  ⟨rfl, rfl⟩

/-- Witness for C5 at a concrete sorted spatial dispatch. -/
theorem C5_witness :
    ((⟨0, true, .StackBased_Default⟩ : TraversalPolicy)._sort_predicates = true
      ∧ List.Perm [1, 0] (List.range ([10, 20] : List Nat).length))
    ∧ (queryDispatchSpatialInline (fun p : Nat => [p]) [10, 20] [1, 0]
          ⟨0, true, .StackBased_Default⟩
        = (queryImpl (fun p : Nat => [p]) (applyPermutation [1, 0] [10, 20])
            (⟨0, true, .StackBased_Default⟩ : TraversalPolicy)._buffer_size).map
            (fun r => unpermuteCSR [1, 0] ([10, 20] : List Nat).length r.1 r.2)
      ∧ (∀ r, queryDispatchSpatialInline (fun p : Nat => [p]) [10, 20] [1, 0]
            ⟨0, true, .StackBased_Default⟩ = .ok r →
          ∀ i, i < ([10, 20] : List Nat).length →
            csrSlice r.1 r.2 i
              = (fun p : Nat => [p]) (([10, 20] : List Nat).getD i default))
      ∧ (∀ q : TraversalPolicy, nearestUsesSortedPath q = false)) :=
  ⟨⟨rfl, by decide⟩,
    C5_sorted_path_mechanism (fun p : Nat => [p]) [10, 20] [1, 0]
      ⟨0, true, .StackBased_Default⟩ rfl (by decide)⟩

/-- C6: the nearest inline dispatch performs no counting pass: the offsets
are the exclusive prefix sum of the requested neighbor counts (so offset
slot i+1 exceeds slot i by query i's k), the values buffer is allocated to
exactly offset[n_queries] entries, and the offsets are independent of what
the traversal finds. -/
theorem C6_nearest_setup [Inhabited α] (g g₂ : α → List V) (getK : α → Nat)
    (preds : List α) (zperm : List Nat) (pol : TraversalPolicy) :
    (queryDispatchNearestInline g getK preds zperm pol).1
      = offsetsOf (preds.map getK)
    ∧ (∀ i, i < preds.length →
        (queryDispatchNearestInline g getK preds zperm pol).1.getD (i + 1) 0
          = getK (preds.getD i default)
            + (queryDispatchNearestInline g getK preds zperm pol).1.getD i 0)
    ∧ (queryDispatchNearestInline g getK preds zperm pol).2.length
      = (queryDispatchNearestInline g getK preds zperm pol).1.getD preds.length 0
    ∧ (queryDispatchNearestInline g₂ getK preds zperm pol).1
      = (queryDispatchNearestInline g getK preds zperm pol).1 := by
  refine ⟨?_, ?_, ?_, ?_⟩
  · rw [nearestDispatch_eq]
  · intro i hi
    rw [nearestDispatch_eq]
    have hi2 : i < (preds.map getK).length := by simpa using hi
    have := offsetsOf_getD_succ (preds.map getK) i hi2
    rw [this, List.getD_eq_getElem _ _ hi2, List.getElem_map,
      ← List.getD_eq_getElem _ default hi]
  · rw [nearest_values_length, nearestDispatch_eq]
  · rw [nearestDispatch_eq, nearestDispatch_eq]

/-- Witness for C6 at a concrete two-query batch with different traversal
results. -/
theorem C6_witness :
    ((queryDispatchNearestInline (fun p : Nat => [p]) (fun _ => 2) [4, 9] []
          {}).1
        = offsetsOf (([4, 9] : List Nat).map (fun _ => 2))
      ∧ (∀ i, i < ([4, 9] : List Nat).length →
          (queryDispatchNearestInline (fun p : Nat => [p]) (fun _ => 2) [4, 9]
              [] {}).1.getD (i + 1) 0
            = (fun _ : Nat => 2) (([4, 9] : List Nat).getD i default)
              + (queryDispatchNearestInline (fun p : Nat => [p]) (fun _ => 2)
                  [4, 9] [] {}).1.getD i 0)
      ∧ (queryDispatchNearestInline (fun p : Nat => [p]) (fun _ => 2) [4, 9]
            [] {}).2.length
        = (queryDispatchNearestInline (fun p : Nat => [p]) (fun _ => 2) [4, 9]
            [] {}).1.getD ([4, 9] : List Nat).length 0
      ∧ (queryDispatchNearestInline (fun _ : Nat => ([] : List Nat))
            (fun _ => 2) [4, 9] [] {}).1
        = (queryDispatchNearestInline (fun p : Nat => [p]) (fun _ => 2) [4, 9]
            [] {}).1) :=
  C6_nearest_setup (fun p : Nat => [p]) (fun _ : Nat => ([] : List Nat))
    (fun _ => 2) [4, 9] [] {}

/-- C7: the post-callback dispatch of either predicate kind first runs the
corresponding inline dispatch with the default collecting callback
(primitive indices for spatial, (index, distance) pairs for nearest) and
then invokes the user's post callback exactly once on the full predicate set
together with the resulting CSR table; the callback's output is the final
result. -/
theorem C7_post_dispatch [Inhabited α] [Inhabited β₂]
    (tr : α → List Nat) (preds : List α)
    (cb : List α → List Nat → List Nat → γ) (zperm : List Nat)
    (trN : β₂ → List (Nat × δ)) (getK : β₂ → Nat) (predsN : List β₂)
    (cbN : List β₂ → List Nat → List (Option (Nat × δ)) → γ₂)
    (zpermN : List Nat) (pol : TraversalPolicy) :
    queryDispatchSpatialPost tr preds cb zperm pol
      = (queryDispatchSpatialInline (defaultSpatialCallback tr) preds zperm
          pol).map (fun r => cb preds r.1 r.2)
    ∧ queryDispatchNearestPost trN getK predsN cbN zpermN pol
      = (fun r => cbN predsN r.1 r.2)
          (queryDispatchNearestInline (defaultNearestCallbackWithDistance trN)
            getK predsN zpermN pol) :=
  ⟨rfl, rfl⟩

/-- C8: every CSR table the inline dispatch paths construct has offsets of
length n_queries + 1 that are non-decreasing, start at 0, and end at the
length of the values sequence. -/
theorem C8_csr_invariants [Inhabited α] [Inhabited β]
    (f : α → List V) (preds : List α) (zperm : List Nat)
    (pol : TraversalPolicy) (r : List Nat × List V)
    (g : β → List W) (getK : β → Nat) (predsN : List β) (zpermN : List Nat)
    (polN : TraversalPolicy)
    (hz : pol._sort_predicates = true → zperm.Perm (List.range preds.length))
    (hr : queryDispatchSpatialInline f preds zperm pol = .ok r) :
    (r.1.length = preds.length + 1
      ∧ r.1.Pairwise (· ≤ ·)
      ∧ r.1.getD 0 0 = 0
      ∧ r.1.getD preds.length 0 = r.2.length)
    ∧ ((queryDispatchNearestInline g getK predsN zpermN polN).1.length
        = predsN.length + 1
      ∧ (queryDispatchNearestInline g getK predsN zpermN polN).1.Pairwise (· ≤ ·)
      ∧ (queryDispatchNearestInline g getK predsN zpermN polN).1.getD 0 0 = 0
      ∧ (queryDispatchNearestInline g getK predsN zpermN polN).1.getD
            predsN.length 0
        = (queryDispatchNearestInline g getK predsN zpermN polN).2.length) := by
  constructor
  · rw [spatialDispatch_eq f preds zperm pol hz, queryImpl_eq] at hr
    split at hr
    · exact absurd hr (by simp)
    · have hr2 := (Except.ok.inj hr).symm
      subst hr2
      refine ⟨?_, offsetsOf_pairwise _, offsetsOf_getD_zero _, ?_⟩
      · show (offsetsOf (countsOf f preds)).length = _
        rw [offsetsOf_length, countsOf, List.length_map]
      · have hcounts : countsOf f preds = (preds.map f).map List.length := by
          rw [List.map_map]; rfl
        show (offsetsOf (countsOf f preds)).getD preds.length 0
          = (flatValues f preds).length
        rw [hcounts, flatValues, length_csr_flatten]
        congr 1
        rw [List.length_map]
  · rw [nearest_values_length]
    rw [nearestDispatch_eq]
    refine ⟨?_, offsetsOf_pairwise _, offsetsOf_getD_zero _, rfl⟩
    rw [offsetsOf_length, List.length_map]

/-- Witness for C8 at concrete spatial and nearest dispatches. -/
theorem C8_witness :
    ((true = true → List.Perm [1, 0] (List.range ([10, 20] : List Nat).length))
      ∧ queryDispatchSpatialInline (fun p : Nat => [p, p]) [10, 20] [1, 0] {}
        = .ok (twoPassQuery (fun p : Nat => [p, p]) [10, 20]))
    ∧ (((twoPassQuery (fun p : Nat => [p, p]) [10, 20]).1.length
          = ([10, 20] : List Nat).length + 1
        ∧ (twoPassQuery (fun p : Nat => [p, p]) [10, 20]).1.Pairwise (· ≤ ·)
        ∧ (twoPassQuery (fun p : Nat => [p, p]) [10, 20]).1.getD 0 0 = 0
        ∧ (twoPassQuery (fun p : Nat => [p, p]) [10, 20]).1.getD
              ([10, 20] : List Nat).length 0
          = (twoPassQuery (fun p : Nat => [p, p]) [10, 20]).2.length)
      ∧ ((queryDispatchNearestInline (fun p : Nat => [p]) (fun _ => 3) [4] []
              {}).1.length = ([4] : List Nat).length + 1
        ∧ (queryDispatchNearestInline (fun p : Nat => [p]) (fun _ => 3) [4] []
              {}).1.Pairwise (· ≤ ·)
        ∧ (queryDispatchNearestInline (fun p : Nat => [p]) (fun _ => 3) [4] []
              {}).1.getD 0 0 = 0
        ∧ (queryDispatchNearestInline (fun p : Nat => [p]) (fun _ => 3) [4] []
              {}).1.getD ([4] : List Nat).length 0
          = (queryDispatchNearestInline (fun p : Nat => [p]) (fun _ => 3) [4]
              [] {}).2.length)) :=
  ⟨⟨by decide, by rfl⟩,
    C8_csr_invariants (fun p : Nat => [p, p]) [10, 20] [1, 0] {}
      (twoPassQuery (fun p : Nat => [p, p]) [10, 20])
      (fun p : Nat => [p]) (fun _ => 3) [4] [] {}
      (by decide) (by rfl)⟩

/-- C10: nearest dispatch (inline and post) never reads the policy's buffer
size: changing it through setBufferSize leaves the output unchanged, the
underlying traversal being invoked with the hardwired buffer argument -1. -/
theorem C10_nearest_ignores_buffer [Inhabited α] [Inhabited β₂]
    (g : α → List V) (getK : α → Nat) (preds : List α) (zperm : List Nat)
    (trN : β₂ → List (Nat × δ)) (getKN : β₂ → Nat) (predsN : List β₂)
    (cb : List β₂ → List Nat → List (Option (Nat × δ)) → γ)
    (zpermN : List Nat) (pol : TraversalPolicy) (bs : Int) :
    queryDispatchNearestInline g getK preds zperm (pol.setBufferSize bs)
      = queryDispatchNearestInline g getK preds zperm pol
    ∧ queryDispatchNearestPost trN getKN predsN cb zpermN (pol.setBufferSize bs)
      = queryDispatchNearestPost trN getKN predsN cb zpermN pol := by
  constructor
  · rw [nearestDispatch_eq, nearestDispatch_eq]
  · unfold queryDispatchNearestPost
    rw [nearestDispatch_eq, nearestDispatch_eq]

/-- C9 (amended): when the box count is not divisible by the number of
ranks, rank 0 warns and processing proceeds; every rank receives exactly
num_boxes / nranks boxes (an even split), and the trailing
num_boxes mod nranks boxes are assigned to no rank. -/
theorem C9_partitioning (n h rank : Nat) (_h0 : 0 < h) (_hrank : rank < h) :
    (n % h ≠ 0 → warnsImbalance n h = true)
    ∧ (boxes_for_rank n h rank).length = n / h
    ∧ (∀ b, b ∈ boxes_for_rank n h rank ↔
        n / h * rank ≤ b ∧ b < n / h * (rank + 1))
    ∧ (∀ b, n / h * h ≤ b → ∀ rank₂, rank₂ < h → b ∉ boxes_for_rank n h rank₂) := by
  refine ⟨?_, ?_, ?_, ?_⟩
  · intro hmod
    simp [warnsImbalance, hmod]
  · simp [boxes_for_rank, num_boxes_per_rank]
  · intro b
    rw [boxes_for_rank, num_boxes_per_rank, List.mem_range'_1, Nat.mul_succ]
  · intro b hb rank₂ hr₂ hmem
    rw [boxes_for_rank, num_boxes_per_rank, List.mem_range'_1] at hmem
    have hmul : n / h * (rank₂ + 1) ≤ n / h * h :=
      Nat.mul_le_mul_left _ hr₂
    rw [Nat.mul_succ] at hmul
    omega

/-- Counterexample for C9 as stated: with 10 boxes on 3 ranks the warning is
emitted, yet box 9 belongs to no rank's partition — the split is even with a
dropped remainder, not an uneven split covering every box. -/
theorem C9_counterexample :
    warnsImbalance 10 3 = true
    ∧ (9 : Nat) ∉ boxes_for_rank 10 3 0
    ∧ (9 : Nat) ∉ boxes_for_rank 10 3 1
    ∧ (9 : Nat) ∉ boxes_for_rank 10 3 2 := by
  decide

/-! Facts about the distributed merge of the raytracing example. -/

lemma sortLT_iff (a b : IntersectedRank) :
    sortLT a b ↔ (a.ray_id < b.ray_id
      ∨ (a.ray_id = b.ray_id ∧ a.entrylength < b.entrylength)) := by
  unfold sortLT sortingLT
  split_ifs with h <;> simp [h]

lemma sortLE_ne_lt {a b : IntersectedRank} (hle : sortLE a b)
    (hne : a.ray_id ≠ b.ray_id ∨ a.entrylength ≠ b.entrylength) :
    sortLT a b := by
  unfold sortLE sortingLT at hle
  rw [sortLT_iff]
  split_ifs at hle with h <;> simp at hle <;> rcases hne with h2 | h2 <;> omega

lemma pairwise_entryLT_of (l : List IntersectedRank)
    (hs : List.Sorted entryLE l)
    (hne : l.Pairwise fun a b => a.entrylength ≠ b.entrylength) :
    l.Pairwise entryLT := by
  refine ((show l.Pairwise entryLE from hs).and hne).imp ?_
  intro a b hab
  unfold entryLE at hab
  unfold entryLT
  omega

lemma applyRayIds_flatten (L : List (List IntersectedRank)) :
    applyRayIds (offsetsOf (L.map List.length)) L.flatten L.length
      = ((List.range L.length).map fun i =>
          (L.getD i []).map fun v => { v with ray_id := (i : Int) }).flatten := by
  unfold applyRayIds
  congr 1
  apply List.map_congr_left
  intro i _
  rw [csrSlice_flatten]

lemma flatten_map_perm (l : List ι) (F G : ι → List X)
    (h : ∀ i ∈ l, (F i).Perm (G i)) :
    ((l.map F).flatten).Perm ((l.map G).flatten) := by
  induction l with
  | nil => rfl
  | cons a l ih =>
    simp only [List.map_cons, List.flatten_cons]
    exact (h a (List.mem_cons_self a l)).append
      (ih fun i hi => h i (List.mem_cons_of_mem a hi))

lemma getD_map_range (F : Nat → X) (n i : Nat) (hi : i < n) (d : X) :
    ((List.range n).map F).getD i d = F i := by
  rw [List.getD_eq_getElem _ _ (by simpa using hi), List.getElem_map,
    List.getElem_range]

/-- Two arrival orders of the same per-query partial results sort to the same
sequence once the entry lengths are pairwise distinct. -/
lemma insertionSort_entry_unique (P Q : List IntersectedRank) (hpq : P.Perm Q)
    (hd : Q.Pairwise fun a b => a.entrylength ≠ b.entrylength) :
    List.insertionSort entryLE P = List.insertionSort entryLE Q := by
  have hdP : P.Pairwise fun a b => a.entrylength ≠ b.entrylength :=
    (hpq.pairwise_iff fun h => Ne.symm h).mpr hd
  have h1 : (List.insertionSort entryLE P).Perm (List.insertionSort entryLE Q) :=
    (List.perm_insertionSort _ P).trans
      (hpq.trans (List.perm_insertionSort _ Q).symm)
  have hsP : (List.insertionSort entryLE P).Pairwise entryLT :=
    pairwise_entryLT_of _ (List.sorted_insertionSort _ P)
      (((List.perm_insertionSort entryLE P).pairwise_iff
        fun h => Ne.symm h).mpr hdP)
  have hsQ : (List.insertionSort entryLE Q).Pairwise entryLT :=
    pairwise_entryLT_of _ (List.sorted_insertionSort _ Q)
      (((List.perm_insertionSort entryLE Q).pairwise_iff
        fun h => Ne.symm h).mpr hd)
  exact List.eq_of_perm_of_sorted h1 hsP hsQ

/-- Sorting a flattening of per-query blocks (block i carrying ray id i and
pairwise distinct entry lengths) under the (ray id, entry length) comparator
yields exactly the concatenation of the entry-sorted blocks. -/
lemma sort_flatten_blocks (Bs : List (List IntersectedRank))
    (hray : ∀ i, i < Bs.length → ∀ x ∈ Bs.getD i [], x.ray_id = (i : Int))
    (hdist : ∀ i, i < Bs.length →
      (Bs.getD i []).Pairwise fun a b => a.entrylength ≠ b.entrylength) :
    List.insertionSort sortLE Bs.flatten
      = ((List.range Bs.length).map fun i =>
          List.insertionSort entryLE (Bs.getD i [])).flatten := by
  have hPA : Bs.flatten.Pairwise
      (fun a b => a.ray_id ≠ b.ray_id ∨ a.entrylength ≠ b.entrylength) := by
    rw [List.pairwise_flatten]
    constructor
    · intro l hl
      obtain ⟨i, hi, rfl⟩ := List.mem_iff_getElem.mp hl
      have hd := hdist i hi
      rw [List.getD_eq_getElem _ _ hi] at hd
      exact hd.imp fun h => Or.inr h
    · rw [List.pairwise_iff_getElem]
      intro i j hi hj hij x hx y hy
      have hxr := hray i hi x (by rw [List.getD_eq_getElem _ _ hi]; exact hx)
      have hyr := hray j hj y (by rw [List.getD_eq_getElem _ _ hj]; exact hy)
      left
      rw [hxr, hyr]
      omega
  have hMA := List.perm_insertionSort sortLE Bs.flatten
  have hMle : (List.insertionSort sortLE Bs.flatten).Pairwise sortLE :=
    List.sorted_insertionSort sortLE Bs.flatten
  have hPM : (List.insertionSort sortLE Bs.flatten).Pairwise
      (fun a b => a.ray_id ≠ b.ray_id ∨ a.entrylength ≠ b.entrylength) :=
    (hMA.pairwise_iff fun h => h.imp Ne.symm Ne.symm).mpr hPA
  have hMlt : (List.insertionSort sortLE Bs.flatten).Pairwise sortLT :=
    (hMle.and hPM).imp fun h => sortLE_ne_lt h.1 h.2
  have hSA : (((List.range Bs.length).map fun i =>
        List.insertionSort entryLE (Bs.getD i [])).flatten).Perm Bs.flatten := by
    have h := flatten_map_perm (List.range Bs.length)
      (fun i => List.insertionSort entryLE (Bs.getD i []))
      (fun i => Bs.getD i [])
      (fun i _ => List.perm_insertionSort _ _)
    rw [show (List.range Bs.length).map (fun i => Bs.getD i []) = Bs from
      map_getD_range Bs] at h
    exact h
  have hSlt : (((List.range Bs.length).map fun i =>
        List.insertionSort entryLE (Bs.getD i [])).flatten).Pairwise sortLT := by
    rw [List.pairwise_flatten]
    constructor
    · intro l hl
      obtain ⟨i, hir, rfl⟩ := List.mem_map.mp hl
      have hi : i < Bs.length := List.mem_range.mp hir
      have hne : (List.insertionSort entryLE (Bs.getD i [])).Pairwise
          (fun a b => a.entrylength ≠ b.entrylength) :=
        ((List.perm_insertionSort entryLE (Bs.getD i [])).pairwise_iff
          fun h => Ne.symm h).mpr (hdist i hi)
      have hlt := pairwise_entryLT_of _
        (List.sorted_insertionSort entryLE (Bs.getD i [])) hne
      refine hlt.imp_of_mem ?_
      intro a b ha hb habe
      have har : a.ray_id = (i : Int) := hray i hi a
        ((List.perm_insertionSort entryLE (Bs.getD i [])).mem_iff.mp ha)
      have hbr : b.ray_id = (i : Int) := hray i hi b
        ((List.perm_insertionSort entryLE (Bs.getD i [])).mem_iff.mp hb)
      rw [sortLT_iff]
      right
      exact ⟨by rw [har, hbr], habe⟩
    · rw [List.pairwise_map]
      refine (List.pairwise_lt_range Bs.length).imp_of_mem ?_
      intro i j hir hjr hij x hx y hy
      have hi : i < Bs.length := List.mem_range.mp hir
      have hj : j < Bs.length := List.mem_range.mp hjr
      have hxr : x.ray_id = (i : Int) := hray i hi x
        ((List.perm_insertionSort entryLE (Bs.getD i [])).mem_iff.mp hx)
      have hyr : y.ray_id = (j : Int) := hray j hj y
        ((List.perm_insertionSort entryLE (Bs.getD j [])).mem_iff.mp hy)
      rw [sortLT_iff]
      left
      rw [hxr, hyr]
      omega
  exact List.eq_of_perm_of_sorted (hMA.trans hSA.symm) hMlt hSlt

/-- The merge of the raytracing example equals, per ray, the entry-sorted
list of that ray's partial results with the ray id restored. -/
lemma merge_eq_target (L : List (List IntersectedRank))
    (hdist : ∀ i, i < L.length →
      (L.getD i []).Pairwise fun a b => a.entrylength ≠ b.entrylength) :
    mergeValues (offsetsOf (L.map List.length)) L.flatten L.length
      = ((List.range L.length).map fun i =>
          List.insertionSort entryLE
            ((L.getD i []).map fun v => { v with ray_id := (i : Int) })).flatten := by
  unfold mergeValues
  rw [applyRayIds_flatten]
  have hlen : ((List.range L.length).map fun j =>
      (L.getD j []).map fun v => { v with ray_id := (j : Int) }).length
        = L.length := by
    simp
  have hray : ∀ i, i < ((List.range L.length).map fun j =>
        (L.getD j []).map fun v => { v with ray_id := (j : Int) }).length →
      ∀ x ∈ ((List.range L.length).map fun j =>
        (L.getD j []).map fun v => { v with ray_id := (j : Int) }).getD i [],
        x.ray_id = (i : Int) := by
    intro i hi x hx
    rw [hlen] at hi
    rw [getD_map_range _ _ _ hi] at hx
    obtain ⟨v, hv, rfl⟩ := List.mem_map.mp hx
    rfl
  have hdist2 : ∀ i, i < ((List.range L.length).map fun j =>
        (L.getD j []).map fun v => { v with ray_id := (j : Int) }).length →
      (((List.range L.length).map fun j =>
        (L.getD j []).map fun v => { v with ray_id := (j : Int) }).getD i
          []).Pairwise fun a b => a.entrylength ≠ b.entrylength := by
    intro i hi
    rw [hlen] at hi
    rw [getD_map_range _ _ _ hi]
    exact List.pairwise_map.mpr ((hdist i hi).imp fun h => h)
  rw [sort_flatten_blocks _ hray hdist2, hlen]
  congr 1
  apply List.map_congr_left
  intro i hir
  have hi := List.mem_range.mp hir
  rw [getD_map_range _ _ _ hi]

/-- C1 (amended): in the distributed merge, provided the entry distances of
each ray's partial results are pairwise distinct, the originating host
restores each partial result's own ray id and orders each ray's partial
results by ascending entry distance before the sequential accumulation, and
the merged sequence is the same for every arrival order of the
Return-Results messages. -/
theorem C1_ordered_merge (L Lx : List (List IntersectedRank))
    (hlen : Lx.length = L.length)
    (hperm : ∀ i, i < L.length → (Lx.getD i []).Perm (L.getD i []))
    (hdist : ∀ i, i < L.length →
      (L.getD i []).Pairwise fun a b => a.entrylength ≠ b.entrylength) :
    mergeValues (offsetsOf (Lx.map List.length)) Lx.flatten Lx.length
      = mergeValues (offsetsOf (L.map List.length)) L.flatten L.length
    ∧ ∀ i, i < L.length →
        (mergedFor (offsetsOf (L.map List.length)) L.flatten
            L.length i).Pairwise (fun a b => a.entrylength ≤ b.entrylength)
        ∧ (mergedFor (offsetsOf (L.map List.length)) L.flatten
            L.length i).Perm
            ((L.getD i []).map fun v => { v with ray_id := (i : Int) }) := by
  have hdistx : ∀ i, i < Lx.length →
      (Lx.getD i []).Pairwise fun a b => a.entrylength ≠ b.entrylength := by
    intro i hi
    have hi2 : i < L.length := hlen ▸ hi
    exact ((hperm i hi2).pairwise_iff fun h => Ne.symm h).mpr (hdist i hi2)
  have hL := merge_eq_target L hdist
  have hLx := merge_eq_target Lx hdistx
  have hlens : ((List.range L.length).map fun j =>
        List.insertionSort entryLE
          ((L.getD j []).map fun v => { v with ray_id := (j : Int) })).map
            List.length
      = L.map List.length := by
    rw [List.map_map]
    have h1 : ∀ j ∈ List.range L.length,
        (List.length ∘ fun j => List.insertionSort entryLE
          ((L.getD j []).map fun v => { v with ray_id := (j : Int) })) j
          = (L.getD j []).length := by
      intro j _
      simp [Function.comp, List.length_insertionSort]
    rw [List.map_congr_left h1]
    have h2 := congrArg (List.map List.length) (map_getD_range L)
    rw [List.map_map] at h2
    exact h2
  constructor
  · rw [hLx, hL, hlen]
    congr 1
    apply List.map_congr_left
    intro i hir
    have hi := List.mem_range.mp hir
    exact insertionSort_entry_unique _ _ ((hperm i hi).map _)
      (List.pairwise_map.mpr ((hdist i hi).imp fun h => h))
  · intro i hi
    unfold mergedFor
    rw [hL, ← hlens, csrSlice_flatten, getD_map_range _ _ _ hi]
    exact ⟨List.sorted_insertionSort entryLE _, List.perm_insertionSort _ _⟩

/-- Counterexample for C1 as stated: two partial results of the same ray
with equal entry distance 5 but different payloads; the two arrival orders
are permutations of each other yet merge to different sequences, so the
final order is not independent of arrival order when entry distances tie
(std::sort fixes no tie order; the model's stable sort keeps arrival
order). -/
theorem C1_counterexample :
    ([(⟨⟨5, 99⟩, 2, 2⟩ : IntersectedRank), ⟨⟨5, 99⟩, 1, 1⟩]).Perm
        [(⟨⟨5, 99⟩, 1, 1⟩ : IntersectedRank), ⟨⟨5, 99⟩, 2, 2⟩]
    ∧ mergeValues
        (offsetsOf (([[(⟨⟨5, 99⟩, 2, 2⟩ : IntersectedRank), ⟨⟨5, 99⟩, 1, 1⟩]] :
          List (List IntersectedRank)).map List.length))
        ([[(⟨⟨5, 99⟩, 2, 2⟩ : IntersectedRank), ⟨⟨5, 99⟩, 1, 1⟩]] :
          List (List IntersectedRank)).flatten 1
      ≠ mergeValues
        (offsetsOf (([[(⟨⟨5, 99⟩, 1, 1⟩ : IntersectedRank), ⟨⟨5, 99⟩, 2, 2⟩]] :
          List (List IntersectedRank)).map List.length))
        ([[(⟨⟨5, 99⟩, 1, 1⟩ : IntersectedRank), ⟨⟨5, 99⟩, 2, 2⟩]] :
          List (List IntersectedRank)).flatten 1 := by
  decide

/-- Witness for C1 at the spec's two-host scenario: entry distances 1.0
(host A) and 3.0 (host B), with host B's reply arriving first. -/
theorem C1_witness :
    (([[(⟨⟨3, 0⟩, 20, 200⟩ : IntersectedRank), ⟨⟨1, 0⟩, 10, 100⟩]] :
        List (List IntersectedRank)).length
      = ([[(⟨⟨1, 0⟩, 10, 100⟩ : IntersectedRank), ⟨⟨3, 0⟩, 20, 200⟩]] :
        List (List IntersectedRank)).length
      ∧ (∀ i, i < ([[(⟨⟨1, 0⟩, 10, 100⟩ : IntersectedRank), ⟨⟨3, 0⟩, 20, 200⟩]] :
          List (List IntersectedRank)).length →
        (([[(⟨⟨3, 0⟩, 20, 200⟩ : IntersectedRank), ⟨⟨1, 0⟩, 10, 100⟩]] :
          List (List IntersectedRank)).getD i []).Perm
          (([[(⟨⟨1, 0⟩, 10, 100⟩ : IntersectedRank), ⟨⟨3, 0⟩, 20, 200⟩]] :
            List (List IntersectedRank)).getD i []))
      ∧ (∀ i, i < ([[(⟨⟨1, 0⟩, 10, 100⟩ : IntersectedRank), ⟨⟨3, 0⟩, 20, 200⟩]] :
          List (List IntersectedRank)).length →
        (([[(⟨⟨1, 0⟩, 10, 100⟩ : IntersectedRank), ⟨⟨3, 0⟩, 20, 200⟩]] :
          List (List IntersectedRank)).getD i []).Pairwise
          fun a b => a.entrylength ≠ b.entrylength))
    ∧ (mergeValues
        (offsetsOf (([[(⟨⟨3, 0⟩, 20, 200⟩ : IntersectedRank), ⟨⟨1, 0⟩, 10, 100⟩]] :
          List (List IntersectedRank)).map List.length))
        ([[(⟨⟨3, 0⟩, 20, 200⟩ : IntersectedRank), ⟨⟨1, 0⟩, 10, 100⟩]] :
          List (List IntersectedRank)).flatten
        ([[(⟨⟨3, 0⟩, 20, 200⟩ : IntersectedRank), ⟨⟨1, 0⟩, 10, 100⟩]] :
          List (List IntersectedRank)).length
      = mergeValues
        (offsetsOf (([[(⟨⟨1, 0⟩, 10, 100⟩ : IntersectedRank), ⟨⟨3, 0⟩, 20, 200⟩]] :
          List (List IntersectedRank)).map List.length))
        ([[(⟨⟨1, 0⟩, 10, 100⟩ : IntersectedRank), ⟨⟨3, 0⟩, 20, 200⟩]] :
          List (List IntersectedRank)).flatten
        ([[(⟨⟨1, 0⟩, 10, 100⟩ : IntersectedRank), ⟨⟨3, 0⟩, 20, 200⟩]] :
          List (List IntersectedRank)).length
      ∧ ∀ i, i < ([[(⟨⟨1, 0⟩, 10, 100⟩ : IntersectedRank), ⟨⟨3, 0⟩, 20, 200⟩]] :
          List (List IntersectedRank)).length →
        (mergedFor
            (offsetsOf (([[(⟨⟨1, 0⟩, 10, 100⟩ : IntersectedRank), ⟨⟨3, 0⟩, 20, 200⟩]] :
              List (List IntersectedRank)).map List.length))
            ([[(⟨⟨1, 0⟩, 10, 100⟩ : IntersectedRank), ⟨⟨3, 0⟩, 20, 200⟩]] :
              List (List IntersectedRank)).flatten
            ([[(⟨⟨1, 0⟩, 10, 100⟩ : IntersectedRank), ⟨⟨3, 0⟩, 20, 200⟩]] :
              List (List IntersectedRank)).length i).Pairwise
            (fun a b => a.entrylength ≤ b.entrylength)
        ∧ (mergedFor
            (offsetsOf (([[(⟨⟨1, 0⟩, 10, 100⟩ : IntersectedRank), ⟨⟨3, 0⟩, 20, 200⟩]] :
              List (List IntersectedRank)).map List.length))
            ([[(⟨⟨1, 0⟩, 10, 100⟩ : IntersectedRank), ⟨⟨3, 0⟩, 20, 200⟩]] :
              List (List IntersectedRank)).flatten
            ([[(⟨⟨1, 0⟩, 10, 100⟩ : IntersectedRank), ⟨⟨3, 0⟩, 20, 200⟩]] :
              List (List IntersectedRank)).length i).Perm
            ((([[(⟨⟨1, 0⟩, 10, 100⟩ : IntersectedRank), ⟨⟨3, 0⟩, 20, 200⟩]] :
              List (List IntersectedRank)).getD i []).map
              fun v => { v with ray_id := (i : Int) })) :=
  ⟨⟨rfl, by decide, by decide⟩,
    C1_ordered_merge
      [[(⟨⟨1, 0⟩, 10, 100⟩ : IntersectedRank), ⟨⟨3, 0⟩, 20, 200⟩]]
      [[(⟨⟨3, 0⟩, 20, 200⟩ : IntersectedRank), ⟨⟨1, 0⟩, 10, 100⟩]]
      rfl (by decide) (by decide)⟩

/-- Witness for C9 at 10 boxes over 3 ranks. -/
theorem C9_witness :
    ((0 < 3) ∧ (1 < 3))
    ∧ ((10 % 3 ≠ 0 → warnsImbalance 10 3 = true)
      ∧ (boxes_for_rank 10 3 1).length = 10 / 3
      ∧ (∀ b, b ∈ boxes_for_rank 10 3 1 ↔
          10 / 3 * 1 ≤ b ∧ b < 10 / 3 * (1 + 1))
      ∧ (∀ b, 10 / 3 * 3 ≤ b → ∀ rank₂, rank₂ < 3 →
          b ∉ boxes_for_rank 10 3 rank₂)) :=
  ⟨⟨by decide, by decide⟩, C9_partitioning 10 3 1 (by decide) (by decide)⟩

end ArborX
